import Mathlib

/-
Shallow embedding of the go-loadbalancer repository: a round-robin HTTP
load balancer consisting of a backend pool with liveness flags
(ServerPool, in src/unnamed/part_000), a dispatcher and retry/failover
error handler (main.go).  Go's `uint64` cursor is modelled as a `Nat`
reduced modulo 2^64 at each atomic add, URLs as strings (the code only
compares them via `String()`), and the request context as an association
list from the integer keys `Attempts`/`Retry` to dynamically typed
values.
-/

namespace LoadBalancer

/-- Modelled from the spec: the `Backend` struct itself is not under
src/ (only its callers are).  Per the spec it holds an immutable
address (`Url`, compared by its string form) and a liveness flag
`Alive`; the `ReverseProxy` forwarder is an external collaborator and
is not part of the state the claims concern. -/
structure Backend where
  Url : String
  Alive : Bool
deriving DecidableEq, Repr

/-- Modelled from the spec: `setAlive(bool)` is an unconditional
overwrite of the liveness flag with no other side effect. -/
def Backend.SetAlive (b : Backend) (alive : Bool) : Backend :=
  { b with Alive := alive }

/-- Modelled from the spec: `isAlive() -> bool` returns the last
written value of the flag. -/
def Backend.IsAlive (b : Backend) : Bool :=
  b.Alive

/-- `ServerPool` from src/unnamed/part_000: ordered backends plus the
shared rotation cursor `current` (a Go `uint64`, kept here as a `Nat`
that every write reduces modulo 2^64). -/
structure ServerPool where
  backends : List Backend
  current : Nat
deriving DecidableEq, Repr

/-- 2^64, the modulus of Go's `uint64` arithmetic. -/
def U64 : Nat := 2 ^ 64

/-- `ServerPool.AddBackend`: append to the ordered sequence. -/
def ServerPool.AddBackend (s : ServerPool) (b : Backend) : ServerPool :=
  { s with backends := s.backends ++ [b] }

/-- `ServerPool.NextIndex`: `int(atomic.AddUint64(&s.current, 1) %
uint64(len(s.backends)))`.  Returns the index and the pool with the
incremented cursor. -/
def ServerPool.NextIndex (s : ServerPool) : Nat × ServerPool :=
  let cur := (s.current + 1) % U64
  (cur % s.backends.length, { s with current := cur })

/-- The loop body of `GetNextPeer`: starting at position `i`, scan the
remaining `fuel` positions (the Go loop runs `i` from `next` to
`next + len - 1`), reducing each position modulo the length and
returning the first backend whose `IsAlive()` is true, together with
the raw loop counter `i` and the wrapped index `idx`. -/
def scanAlive (bs : List Backend) : Nat → Nat → Option (Nat × Nat × Backend)
  | _, 0 => none
  | i, fuel + 1 =>
    let idx := i % bs.length
    match bs[idx]? with
    | some b => if b.IsAlive then some (i, idx, b) else scanAlive bs (i + 1) fuel
    | none => none

/-- `ServerPool.GetNextPeer`: take a starting index from `NextIndex`,
scan at most `len(backends)` positions for an alive backend; when the
hit is not at the starting position, store its wrapped index into the
cursor (`atomic.StoreUint64(&s.current, uint64(idx))`; `idx` is a
nonnegative Go `int` below the length, so the `uint64` conversion is
the identity).  Returns `none` when no backend is alive. -/
def ServerPool.GetNextPeer (s : ServerPool) : Option Backend × ServerPool :=
  let p := s.NextIndex
  let next := p.1
  let s1 := p.2
  match scanAlive s1.backends next s1.backends.length with
  | some (i, idx, b) =>
    if i ≠ next then (some b, { s1 with current := idx }) else (some b, s1)
  | none => (none, s1)

/-- The loop of `MarkBackendStatus`: linear scan, set the flag on the
first backend whose URL string equals the given one, then `break`. -/
def markFirst (u : String) (alive : Bool) : List Backend → List Backend
  | [] => []
  | b :: bs =>
    if b.Url = u then b.SetAlive alive :: bs
    else b :: markFirst u alive bs

/-- `ServerPool.MarkBackendStatus`. -/
def ServerPool.MarkBackendStatus (s : ServerPool) (u : String) (alive : Bool) :
    ServerPool :=
  { s with backends := markFirst u alive s.backends }

/-- `isBackendAlive` (main.go): dial a TCP connection to the address
with a 2 second timeout and return true exactly when the dial
succeeds, false when it returns an error.  The dial itself is external
IO, so its outcome per address is the parameter `probe`: the function
returns that outcome (the dialed `u.Host` is determined by the
address, and the opened connection is only closed, never used). -/
def isBackendAlive (probe : String → Bool) (u : String) : Bool :=
  probe u

/-- The loop of `HeadthCheck` (sic): for each backend in order, probe
it and `SetAlive` the result. -/
def healthLoop (probe : String → Bool) : List Backend → List Backend
  | [] => []
  | b :: bs => b.SetAlive (isBackendAlive probe b.Url) :: healthLoop probe bs

/-- `ServerPool.HeadthCheck`: one synchronous health-check pass over
the whole pool. -/
def ServerPool.HeadthCheck (probe : String → Bool) (s : ServerPool) : ServerPool :=
  { s with backends := healthLoop probe s.backends }

/-- A dynamically typed context value: Go's `interface{}` as stored by
`context.WithValue` — either an `int` or some value of another type. -/
inductive CtxVal where
  | vint (n : Int)
  | vother (tag : Nat)
deriving DecidableEq, Repr

/-- A request context: the chain of `context.WithValue` wrappers, most
recent first. -/
abbrev Context := List (Nat × CtxVal)

/-- The `Attempts` context key (`iota` value 0 in main.go). -/
def Attempts : Nat := 0

/-- The `Retry` context key (`iota` value 1 in main.go). -/
def Retry : Nat := 1

/-- `context.WithValue`: wrap the context with one more key/value pair. -/
def Context.withValue (c : Context) (k : Nat) (v : CtxVal) : Context :=
  (k, v) :: c

/-- `Context.Value`: innermost (most recently added) value for the key,
or `none`. -/
def Context.value (c : Context) (k : Nat) : Option CtxVal :=
  (c.find? (fun p => p.1 = k)).map (fun p => p.2)

/-- `GetRetryFromContext`: the context value under `Retry` if it is an
`int`, else 0. -/
def GetRetryFromContext (c : Context) : Int :=
  match c.value Retry with
  | some (CtxVal.vint n) => n
  | _ => 0

/-- `GetAttemptsFromContext`: the context value under `Attempts` if it
is an `int`, else 0. -/
def GetAttemptsFromContext (c : Context) : Int :=
  match c.value Attempts with
  | some (CtxVal.vint n) => n
  | _ => 0

/-- Outcome of the dispatcher `lb`: either the request was handed to
the chosen peer's forwarder, or an HTTP error with the given status
code was written. -/
inductive LbResult where
  | forwarded (b : Backend)
  | serviceUnavailable (code : Nat)
deriving DecidableEq, Repr

/-- `lb` (main.go): ask the pool for a peer; forward to it if one is
returned, otherwise answer 503 Service Unavailable. -/
def lb (s : ServerPool) : LbResult × ServerPool :=
  match s.GetNextPeer with
  | (some peer, s2) => (LbResult.forwarded peer, s2)
  | (none, s2) => (LbResult.serviceUnavailable 503, s2)

/-- Iterate `lb`-style selection: the results of `n` consecutive
`GetNextPeer` calls, threading the pool state. -/
def getNextPeers : Nat → ServerPool → List (Option Backend)
  | 0, _ => []
  | n + 1, s =>
    let p := s.GetNextPeer
    p.1 :: getNextPeers n p.2

/-- One observable step of `proxy.ErrorHandler` (main.go): the log
line, the 10 ms backoff followed by re-invoking the same proxy with the
incremented `Retry` value, marking the proxied backend dead, and
re-entering `lb` with the incremented `Attempts` value. -/
inductive HEvent where
  | logError
  | backoffRetry (ms : Nat) (newRetries : Int)
  | markDead (u : String)
  | redispatch (newAttempts : Int)
deriving DecidableEq, Repr

/-- `proxy.ErrorHandler` (main.go), as the sequence of observable
actions of one invocation: log; if the retry count from the context is
below 3, wait 10 ms and re-invoke delivery against the same backend
with `Retry` incremented; then — unconditionally — mark this backend
dead, and re-enter `lb` with `Attempts` incremented. -/
def errorHandler (u : String) (r : Context) : List HEvent :=
  let retries := GetRetryFromContext r
  HEvent.logError ::
    (if retries < 3 then [HEvent.backoffRetry 10 (retries + 1)] else []) ++
      [HEvent.markDead u, HEvent.redispatch (GetAttemptsFromContext r + 1)]

/-- Concrete pool for the spec's happy-path scenario: backends A, B, C
in that order, all alive, cursor at its initial value 0. -/
def poolABC : ServerPool :=
  { backends := [⟨"A", true⟩, ⟨"B", true⟩, ⟨"C", true⟩], current := 0 }

/-- A two-backend pool with the first backend dead and the cursor at 0,
so that the next selection starts at index 1 (the alive backend). -/
def poolDeadA0 : ServerPool :=
  { backends := [⟨"A", false⟩, ⟨"B", true⟩], current := 0 }

/-- A two-backend pool with the first backend dead and the cursor at 1,
so that the next selection starts at index 0 (the dead backend) and the
scan must advance. -/
def poolDeadA1 : ServerPool :=
  { backends := [⟨"A", false⟩, ⟨"B", true⟩], current := 1 }

/-- A three-backend pool with every backend dead. -/
def poolAllDead : ServerPool :=
  { backends := [⟨"A", false⟩, ⟨"B", false⟩, ⟨"C", false⟩], current := 0 }

/- ### Helper lemmas -/

/-- Unfolding of `GetNextPeer` with the lets beta-reduced. -/
lemma GetNextPeer_def (s : ServerPool) :
    s.GetNextPeer =
      match scanAlive s.backends ((s.current + 1) % U64 % s.backends.length)
          s.backends.length with
      | some (i, idx, b) =>
        if i ≠ (s.current + 1) % U64 % s.backends.length
        then (some b, { backends := s.backends, current := idx })
        else (some b, { backends := s.backends, current := (s.current + 1) % U64 })
      | none => (none, { backends := s.backends, current := (s.current + 1) % U64 }) :=
  rfl

/-- Whatever `scanAlive` returns satisfies: the wrapped index is the raw
counter reduced modulo the length, the backend is the one stored at the
wrapped index, and its liveness flag was observed true. -/
lemma scanAlive_sound (bs : List Backend) :
    ∀ (fuel i j idx : Nat) (b : Backend),
      scanAlive bs i fuel = some (j, idx, b) →
      idx = j % bs.length ∧ bs[idx]? = some b ∧ b.IsAlive = true := by
  intro fuel
  induction fuel with
  | zero =>
    intro i j idx b h
    simp [scanAlive] at h
  | succ f ih =>
    intro i j idx b h
    simp only [scanAlive] at h
    split at h
    · split at h
      · rename_i b' heq hal
        injection h with h
        injection h with h1 h
        injection h with h2 h3
        subst h1; subst h2; subst h3
        exact ⟨rfl, heq, hal⟩
      · exact ih (i + 1) j idx b h
    · exact absurd h (by simp)

/-- If the backend at the starting position is alive, the scan hits it
immediately. -/
lemma scanAlive_start (bs : List Backend) (i fuel : Nat) (hf : fuel ≠ 0)
    (b : Backend) (hb : bs[i % bs.length]? = some b) (ha : b.IsAlive = true) :
    scanAlive bs i fuel = some (i, i % bs.length, b) := by
  cases fuel with
  | zero => exact absurd rfl hf
  | succ f => simp [scanAlive, hb, ha]

/-- If every backend is dead the scan finds nothing, for any starting
position and any fuel. -/
lemma scanAlive_none (bs : List Backend) (hd : ∀ b ∈ bs, b.IsAlive = false) :
    ∀ (fuel i : Nat), scanAlive bs i fuel = none := by
  intro fuel
  induction fuel with
  | zero => intro i; rfl
  | succ f ih =>
    intro i
    simp only [scanAlive]
    rcases hg : bs[i % bs.length]? with _ | b
    · simp [hg]
    · have hb : b ∈ bs := List.getElem?_mem hg
      simp [hg, hd b hb, ih]

/-- When the backend at the starting index is alive, `GetNextPeer`
returns it and the only state change is the cursor increment done by
`NextIndex`. -/
lemma GetNextPeer_start_alive (s : ServerPool) (hlen : 1 ≤ s.backends.length)
    (b : Backend)
    (hb : s.backends[(s.current + 1) % U64 % s.backends.length]? = some b)
    (ha : b.IsAlive = true) :
    s.GetNextPeer = (some b, { s with current := (s.current + 1) % U64 }) := by
  have hmm : (s.current + 1) % U64 % s.backends.length % s.backends.length
      = (s.current + 1) % U64 % s.backends.length :=
    Nat.mod_mod_of_dvd _ dvd_rfl
  rw [GetNextPeer_def,
    scanAlive_start s.backends _ s.backends.length (by omega) b (by rw [hmm]; exact hb) ha]
  simp

/- ### Claim theorems -/

/-- C1: on a delivery failure whose context carries a retry count below
3, one invocation of the proxy error handler both performs the
same-backend retry (10 ms backoff, `Retry` incremented, same proxy
re-invoked) and, unconditionally afterwards, marks the current backend
dead, increments `Attempts`, and re-enters the dispatcher `lb` — the
two branches are not mutually exclusive. -/
theorem errorHandler_retry_and_failover (u : String) (r : Context)
    (h : GetRetryFromContext r < 3) :
    errorHandler u r =
      [HEvent.logError, HEvent.backoffRetry 10 (GetRetryFromContext r + 1),
       HEvent.markDead u, HEvent.redispatch (GetAttemptsFromContext r + 1)] := by
  simp [errorHandler, h]

/-- Witness for the error-handler theorem at the fresh (empty) context,
whose retry count is 0. -/
theorem errorHandler_retry_and_failover_witness :
    GetRetryFromContext ([] : Context) < 3 ∧
    errorHandler "A" [] =
      [HEvent.logError, HEvent.backoffRetry 10 (GetRetryFromContext ([] : Context) + 1),
       HEvent.markDead "A",
       HEvent.redispatch (GetAttemptsFromContext ([] : Context) + 1)] :=
  ⟨by decide, errorHandler_retry_and_failover "A" [] (by decide)⟩

/-- C2 counterexample: with backends A, B, C all alive and the cursor
at its initial value 0, the first request is routed to B (the cursor
increments before the modulo), not to A as the claim states. -/
theorem happyPath_first_request_not_A :
    (lb poolABC).1 ≠ LbResult.forwarded ⟨"A", true⟩ ∧
    (lb poolABC).1 = LbResult.forwarded ⟨"B", true⟩ := by decide

/-- C2 amended: with backends A, B, C all alive and the cursor at its
initial value 0, three sequential requests are routed to B, then C,
then A. -/
theorem happyPath_routes_BCA :
    (lb poolABC).1 = LbResult.forwarded ⟨"B", true⟩ ∧
    (lb (lb poolABC).2).1 = LbResult.forwarded ⟨"C", true⟩ ∧
    (lb (lb (lb poolABC).2).2).1 = LbResult.forwarded ⟨"A", true⟩ := by decide

/-- C4: every backend that `GetNextPeer` returns had its liveness flag
observed true during the scan; in particular a backend whose flag is
false is never returned. -/
theorem getNextPeer_returns_alive (s : ServerPool) (b : Backend) (s2 : ServerPool)
    (h : s.GetNextPeer = (some b, s2)) : b.IsAlive = true := by
  rw [GetNextPeer_def] at h
  split at h
  · rename_i i idx b' heq
    have hs := scanAlive_sound s.backends s.backends.length _ _ _ _ heq
    split at h <;>
      (injection h with h1 h2; injection h1 with h1; subst h1; exact hs.2.2)
  · injection h with h1 h2
    exact Option.noConfusion h1

/-- Witness: on the pool with A dead and B alive, `GetNextPeer` returns
B, which is alive. -/
theorem getNextPeer_returns_alive_witness :
    Backend.IsAlive ⟨"B", true⟩ = true :=
  getNextPeer_returns_alive poolDeadA0 ⟨"B", true⟩
    { backends := [⟨"A", false⟩, ⟨"B", true⟩], current := 1 } (by decide)

/-- C5: when every backend's flag is false, `GetNextPeer` returns
`none` and leaves the backends (hence their flags) unchanged — so every
further call also returns `none` until a flag is set true — and the
dispatcher `lb` answers 503 Service Unavailable without forwarding to
any peer. -/
theorem allDead_serviceUnavailable (s : ServerPool) (hlen : 1 ≤ s.backends.length)
    (hd : ∀ b ∈ s.backends, b.IsAlive = false) :
    s.GetNextPeer = (none, { s with current := (s.current + 1) % U64 }) ∧
    lb s = (LbResult.serviceUnavailable 503,
      { s with current := (s.current + 1) % U64 }) := by
  have h1 : s.GetNextPeer = (none, { s with current := (s.current + 1) % U64 }) := by
    rw [GetNextPeer_def, scanAlive_none s.backends hd]
  exact ⟨h1, by simp [lb, h1]⟩

/-- Witness: the all-dead three-backend pool yields `none` and a 503. -/
theorem allDead_serviceUnavailable_witness :
    poolAllDead.GetNextPeer =
      (none, { poolAllDead with current := (poolAllDead.current + 1) % U64 }) ∧
    lb poolAllDead = (LbResult.serviceUnavailable 503,
      { poolAllDead with current := (poolAllDead.current + 1) % U64 }) :=
  allDead_serviceUnavailable poolAllDead (by decide) (by decide)

/-- C6: with at least one backend in the pool, every index returned by
`NextIndex` is within bounds (`0 ≤ index` holds trivially of the `Nat`
result, and the modulo divisor is nonzero, so the division-by-zero is
unreachable); the bound holds for every pool state, hence under any
sequence of calls. -/
theorem nextIndex_in_range (s : ServerPool) (h : 1 ≤ s.backends.length) :
    (s.NextIndex).1 < s.backends.length := by
  simp only [ServerPool.NextIndex]
  exact Nat.mod_lt _ (by omega)

/-- Witness: on the three-backend pool the next index is in range. -/
theorem nextIndex_in_range_witness :
    (poolABC.NextIndex).1 < poolABC.backends.length :=
  nextIndex_in_range poolABC (by decide)

/-- C10: when the context holds no `int` under the `Retry`
(respectively `Attempts`) key — the key is absent or its value has a
different type — `GetRetryFromContext` (respectively
`GetAttemptsFromContext`) returns 0. -/
theorem getFromContext_defaults (c : Context) :
    ((∀ n : Int, Context.value c Retry ≠ some (CtxVal.vint n)) →
      GetRetryFromContext c = 0) ∧
    ((∀ n : Int, Context.value c Attempts ≠ some (CtxVal.vint n)) →
      GetAttemptsFromContext c = 0) := by
  constructor
  · intro h
    unfold GetRetryFromContext
    split
    · rename_i n heq
      exact absurd heq (h n)
    · rfl
  · intro h
    unfold GetAttemptsFromContext
    split
    · rename_i n heq
      exact absurd heq (h n)
    · rfl

/-- Witness: the fresh (empty) context yields retry count 0 and attempt
count 0. -/
theorem getFromContext_defaults_witness :
    GetRetryFromContext [] = 0 ∧ GetAttemptsFromContext [] = 0 :=
  ⟨(getFromContext_defaults []).1 (by intro n; simp [Context.value]),
   (getFromContext_defaults []).2 (by intro n; simp [Context.value])⟩

/-- `markFirst` is the identity when no backend's URL matches. -/
lemma markFirst_noMatch (u : String) (a : Bool) :
    ∀ bs : List Backend, (∀ b ∈ bs, b.Url ≠ u) → markFirst u a bs = bs := by
  intro bs
  induction bs with
  | nil => intro _; rfl
  | cons b bs ih =>
    intro h
    have hb : b.Url ≠ u := h b (by simp)
    simp [markFirst, hb, ih (fun x hx => h x (by simp [hx]))]

/-- `markFirst` sets the flag at the position of the first match and
leaves every other position untouched. -/
lemma markFirst_found (u : String) (a : Bool) :
    ∀ (bs : List Backend) (j : Nat) (bj : Backend),
      bs[j]? = some bj → bj.Url = u →
      (∀ k, k < j → ∀ bk, bs[k]? = some bk → bk.Url ≠ u) →
      (markFirst u a bs)[j]? = some (bj.SetAlive a) ∧
      ∀ k, k ≠ j → (markFirst u a bs)[k]? = bs[k]? := by
  intro bs
  induction bs with
  | nil =>
    intro j bj hj
    simp at hj
  | cons b bs ih =>
    intro j bj hj hju hk
    by_cases hbu : b.Url = u
    · cases j with
      | zero =>
        simp at hj
        subst hj
        refine ⟨by simp [markFirst, hbu], ?_⟩
        intro k hk0
        cases k with
        | zero => exact absurd rfl hk0
        | succ k2 => simp [markFirst, hbu]
      | succ j2 =>
        exact absurd hbu (hk 0 (by omega) b (by simp))
    · cases j with
      | zero =>
        simp at hj
        subst hj
        exact absurd hju hbu
      | succ j2 =>
        simp at hj
        have hk2 : ∀ k, k < j2 → ∀ bk, bs[k]? = some bk → bk.Url ≠ u := by
          intro k hkj bk hbk
          exact hk (k + 1) (by omega) bk (by simpa using hbk)
        obtain ⟨h1, h2⟩ := ih j2 bj hj hju hk2
        refine ⟨by simpa [markFirst, hbu] using h1, ?_⟩
        intro k hkj
        cases k with
        | zero => simp [markFirst, hbu]
        | succ k2 => simpa [markFirst, hbu] using h2 k2 (by omega)

/-- C8: `MarkBackendStatus` scans by URL-string equality, overwrites
the flag of the first matching backend, leaves every other position
unchanged, and is a complete no-op when no backend matches. -/
theorem markBackendStatus_spec (s : ServerPool) (u : String) (a : Bool) :
    ((∀ b ∈ s.backends, b.Url ≠ u) → s.MarkBackendStatus u a = s) ∧
    (∀ (j : Nat) (bj : Backend),
      s.backends[j]? = some bj → bj.Url = u →
      (∀ k, k < j → ∀ bk, s.backends[k]? = some bk → bk.Url ≠ u) →
      (s.MarkBackendStatus u a).backends[j]? = some (bj.SetAlive a) ∧
      ∀ k, k ≠ j → (s.MarkBackendStatus u a).backends[k]? = s.backends[k]?) := by
  constructor
  · intro h
    simp [ServerPool.MarkBackendStatus, markFirst_noMatch u a s.backends h]
  · intro j bj hj hju hk
    exact markFirst_found u a s.backends j bj hj hju hk

/-- Witness: marking B dead in the A, B, C pool updates index 1 and
leaves indices 0 and 2 unchanged. -/
theorem markBackendStatus_spec_witness :
    (poolABC.MarkBackendStatus "B" false).backends[1]? =
      some (Backend.SetAlive ⟨"B", true⟩ false) ∧
    (poolABC.MarkBackendStatus "B" false).backends[0]? = poolABC.backends[0]? ∧
    (poolABC.MarkBackendStatus "B" false).backends[2]? = poolABC.backends[2]? :=
  let h := (markBackendStatus_spec poolABC "B" false).2 1 ⟨"B", true⟩
    (by decide) (by decide)
    (by
      intro k hklt bk hbk
      have hk0 : k = 0 := by omega
      subst hk0
      simp [poolABC] at hbk
      subst hbk
      decide)
  ⟨h.1, h.2 0 (by decide), h.2 2 (by decide)⟩

/-- `healthLoop` rewrites each position with the probed flag. -/
lemma healthLoop_getElem? (probe : String → Bool) (bs : List Backend) :
    ∀ i : Nat, (healthLoop probe bs)[i]? =
      (bs[i]?).map (fun b => b.SetAlive (isBackendAlive probe b.Url)) := by
  induction bs with
  | nil => intro i; simp [healthLoop]
  | cons b bs ih =>
    intro i
    cases i with
    | zero => simp [healthLoop]
    | succ j => simp [healthLoop, ih j]

/-- `healthLoop` keeps the pool size. -/
lemma healthLoop_length (probe : String → Bool) (bs : List Backend) :
    (healthLoop probe bs).length = bs.length := by
  induction bs with
  | nil => rfl
  | cons b bs ih => simp [healthLoop, ih]

/-- C9: a health-check pass keeps the pool size and rewrites the flag
of the backend at every position — each backend is visited exactly
once, in insertion order — setting it to true exactly when the TCP
probe of its address succeeds and to false when the dial fails. -/
theorem headthCheck_probes_each_backend (probe : String → Bool) (s : ServerPool) :
    (s.HeadthCheck probe).backends.length = s.backends.length ∧
    ∀ i : Nat, (s.HeadthCheck probe).backends[i]? =
      (s.backends[i]?).map (fun b => b.SetAlive (isBackendAlive probe b.Url)) :=
  ⟨healthLoop_length probe s.backends, healthLoop_getElem? probe s.backends⟩

/-- C7: when the backend at the starting index of the scan is alive,
`GetNextPeer` leaves the cursor exactly as the `NextIndex` increment
left it (no further write); when the backend at the starting index is
dead and a peer is still returned, the cursor has been overwritten with
the returned backend's wrapped index — an in-range position holding
that backend. -/
theorem getNextPeer_cursor_frame (s : ServerPool) (hlen : 1 ≤ s.backends.length) :
    (∀ b : Backend,
        s.backends[(s.current + 1) % U64 % s.backends.length]? = some b →
        b.IsAlive = true →
        (s.GetNextPeer).2 = { s with current := (s.current + 1) % U64 }) ∧
    (∀ (b : Backend) (s2 : ServerPool),
        s.GetNextPeer = (some b, s2) →
        (∀ b0 : Backend,
          s.backends[(s.current + 1) % U64 % s.backends.length]? = some b0 →
          b0.IsAlive = false) →
        s2.current < s.backends.length ∧ s2.backends[s2.current]? = some b) := by
  constructor
  · intro b hb ha
    rw [GetNextPeer_start_alive s hlen b hb ha]
  · intro b s2 h hdead
    have hnext_lt : (s.current + 1) % U64 % s.backends.length < s.backends.length :=
      Nat.mod_lt _ (by omega)
    rw [GetNextPeer_def] at h
    split at h
    · rename_i i idx b' heq
      obtain ⟨hidx, hget, halive⟩ :=
        scanAlive_sound s.backends s.backends.length
          ((s.current + 1) % U64 % s.backends.length) i idx b' heq
      by_cases hin : i = (s.current + 1) % U64 % s.backends.length
      · exfalso
        have hidx_eq : idx = (s.current + 1) % U64 % s.backends.length := by
          rw [hidx, hin]
          exact Nat.mod_eq_of_lt hnext_lt
        have : b'.IsAlive = false := hdead b' (hidx_eq ▸ hget)
        rw [halive] at this
        exact Bool.noConfusion this
      · rw [if_pos hin] at h
        injection h with h1 h2
        injection h1 with h1
        subst h1
        subst h2
        refine ⟨?_, ?_⟩
        · show idx < s.backends.length
          rw [hidx]
          exact Nat.mod_lt _ (by omega)
        · exact hget
    · injection h with h1 h2
      exact Option.noConfusion h1

/-- Witness for the cursor frame effect: with A dead and B alive, a
scan starting at B leaves the cursor as the increment left it, and a
scan starting at A overwrites the cursor with B's index 1. -/
theorem getNextPeer_cursor_frame_witness :
    (poolDeadA0.GetNextPeer).2 =
      { poolDeadA0 with current := (poolDeadA0.current + 1) % U64 } ∧
    (poolDeadA1.current < poolDeadA1.backends.length ∧
      poolDeadA1.backends[poolDeadA1.current]? = some ⟨"B", true⟩) :=
  ⟨(getNextPeer_cursor_frame poolDeadA0 (by decide)).1 ⟨"B", true⟩
      (by decide) (by decide),
   (getNextPeer_cursor_frame poolDeadA1 (by decide)).2 ⟨"B", true⟩ poolDeadA1
      (by decide)
      (by
        intro b0 hb0
        have hA : poolDeadA1.backends[(poolDeadA1.current + 1) % U64 %
            poolDeadA1.backends.length]? = some ⟨"A", false⟩ := by decide
        rw [hA] at hb0
        injection hb0 with hb0
        rw [← hb0]
        decide)⟩

/-- When every backend is alive, `n` consecutive selections starting
from cursor value `c` (with no wraparound of the 64-bit counter) return
the backends at positions `c + 1, c + 2, …` reduced modulo the length. -/
lemma getNextPeers_all_alive (bs : List Backend) (hlen : 1 ≤ bs.length)
    (ha : ∀ b ∈ bs, b.IsAlive = true) :
    ∀ (n c : Nat), c + n < U64 →
      getNextPeers n ⟨bs, c⟩ =
        (List.range n).map (fun k => bs[(c + 1 + k) % bs.length]?) := by
  intro n
  induction n with
  | zero => intro c _; rfl
  | succ m ih =>
    intro c hc
    have hc1 : (c + 1) % U64 = c + 1 := Nat.mod_eq_of_lt (by omega)
    have hidx : (c + 1) % bs.length < bs.length := Nat.mod_lt _ (by omega)
    obtain ⟨bv, hb⟩ : ∃ bv, bs[(c + 1) % bs.length]? = some bv :=
      ⟨_, List.getElem?_eq_getElem hidx⟩
    have halive : bv.IsAlive = true := ha _ (List.getElem?_mem hb)
    have hstep : ServerPool.GetNextPeer ⟨bs, c⟩ = (some bv, ⟨bs, c + 1⟩) := by
      have h0 := GetNextPeer_start_alive ⟨bs, c⟩ hlen bv
        (by simp [hc1]; exact hb) halive
      simpa [hc1] using h0
    simp only [getNextPeers]
    rw [hstep]
    rw [ih (c + 1) (by omega)]
    rw [List.range_succ_eq_map, List.map_cons, List.map_map]
    congr 1
    · simpa using hb.symm
    · apply List.map_congr_left
      intro k _
      simp only [Function.comp_apply]
      have harg : c + 1 + 1 + k = c + 1 + (k + 1) := by omega
      simp [Nat.succ_eq_add_one, harg]

/-- C3: for every pool of at least one backend, all alive, with the
cursor at its initial value 0 (and fewer than 2^64 backends, so the
64-bit counter does not wrap), `len(backends)` consecutive
`GetNextPeer` calls return each backend exactly once, in insertion
order starting from index 1 — the list of results is the backend list
rotated by one. -/
theorem getNextPeer_round_robin (s : ServerPool)
    (hlen : 1 ≤ s.backends.length) (hsmall : s.backends.length < U64)
    (hcur : s.current = 0)
    (ha : ∀ b ∈ s.backends, b.IsAlive = true) :
    getNextPeers s.backends.length s = (s.backends.rotate 1).map some := by
  obtain ⟨bs, cur⟩ := s
  simp only at hcur ha hlen hsmall ⊢
  subst hcur
  rw [getNextPeers_all_alive bs hlen ha bs.length 0 (by omega)]
  apply List.ext_getElem?
  intro m
  by_cases hm : m < bs.length
  · rw [List.getElem?_map, List.getElem?_map, List.getElem?_range hm]
    have hrot : (bs.rotate 1)[m]? = bs[(m + 1) % bs.length]? := by
      rw [← List.get?_eq_getElem?, ← List.get?_eq_getElem?,
        List.get?_rotate hm]
    rw [hrot]
    have hlt : (m + 1) % bs.length < bs.length := Nat.mod_lt _ (by omega)
    rw [List.getElem?_eq_getElem hlt]
    have harith : 0 + 1 + m = m + 1 := by omega
    simp [harith, List.getElem?_eq_getElem hlt]
  · have h1 : bs.length ≤ m := by omega
    rw [List.getElem?_eq_none (by simpa using h1),
      List.getElem?_eq_none (by simp; omega)]

/-- Witness: on the A, B, C pool the three consecutive selections are
B, C, A — the backend list rotated by one. -/
theorem getNextPeer_round_robin_witness :
    getNextPeers poolABC.backends.length poolABC =
      (poolABC.backends.rotate 1).map some :=
  getNextPeer_round_robin poolABC (by decide) (by decide) (by decide) (by decide)

end LoadBalancer
